import Mathlib

/-!
Verification of the client-side catalog logic of the Film repository.

The JavaScript sources are shallowly embedded as pure Lean functions:

* `VideoCatalog.performSearch`, `VideoCatalog.applySortAndFilter`,
  `VideoCatalog.loadVideos` / `refreshVideos` (main catalog script);
* `VideoUploader.validateForm`, `convertToEmbedUrl` and the URL predicates
  (assets/js/upload.js);
* `VideoPlayer.isDirectVideoUrl`, `convertGoogleDriveUrl` (assets/js/video.js).

Video records are modelled with `dateAdded` as the parsed timestamp (an
integer): the JSON schema stores ISO-8601 strings and the scripts compare
them via `new Date(...)` subtraction.  JavaScript's `Array.prototype.sort`
with a consistent comparator produces the unique stable order, which is
modelled by `List.insertionSort` (a stable sort) on the relation
"comparator result ≤ 0".  Host string primitives (`toLowerCase`, `trim`,
`includes`) are modelled character-wise on `List Char`.
-/

namespace Film

/-- A catalog entry, following the VideoRecord data model of the JSON
document.  `dateAdded` is the parsed timestamp of the ISO-8601 string. -/
structure Record where
  id : String
  title : String
  description : String
  thumbnail : String
  videoUrl : String
  driveUrl : String
  dateAdded : Int
  folder : Option String
  deriving Repr, DecidableEq

/-- Models JavaScript `String.prototype.toLowerCase` (character-wise;
ASCII letters are the case the catalog data exercises). -/
def strToLower (s : String) : String :=
  (s.toList.map Char.toLower).asString

/-- Models JavaScript `String.prototype.trim` (strip leading and trailing
whitespace). -/
def strTrim (s : String) : String :=
  (((s.toList.dropWhile Char.isWhitespace).reverse.dropWhile
      Char.isWhitespace).reverse).asString

/-- Does the pattern `pat` occur as a contiguous run somewhere in `s`?
Models JavaScript `String.prototype.includes` via its list of characters. -/
def containsL : List Char → List Char → Bool
  | [], pat => pat.isEmpty
  | c :: rest, pat => pat.isPrefixOf (c :: rest) || containsL rest pat

/-- Models `s.includes(pat)` on strings. -/
def containsStr (s pat : String) : Bool :=
  containsL s.toList pat.toList

/-- Models ECMAScript `Array.prototype.sort(cmp)` for a numeric comparator:
the sort is required to be stable, and for a consistent comparator the
result is the unique stable order, realised here by insertion sort on the
relation `cmp a b ≤ 0`. -/
def sortJs (cmp : α → α → Int) (l : List α) : List α :=
  l.insertionSort (fun a b => cmp a b ≤ 0)

-- Basic facts about the string helpers.

theorem containsL_nil (s : List Char) : containsL s [] = true := by
  cases s <;> simp [containsL, List.isPrefixOf]

theorem containsL_self (s : List Char) : containsL s s = true := by
  cases s with
  | nil => simp [containsL]
  | cons c t =>
    simp only [containsL, Bool.or_eq_true]
    left
    exact List.isPrefixOf_iff_prefix.mpr (List.prefix_refl _)

theorem containsStr_empty (s : String) : containsStr s "" = true :=
  containsL_nil s.toList

theorem containsStr_self (s : String) : containsStr s s = true :=
  containsL_self s.toList

/-! ## Search and ranking engine (VideoCatalog.performSearch) -/

/-- Models `video.folder && video.folder.toLowerCase().includes(term)`:
the folder field is optional and a missing folder never matches. -/
def folderContains (term : String) (v : Record) : Bool :=
  match v.folder with
  | some f => containsStr (strToLower f) term
  | none => false

/-- The match predicate of `performSearch` (and, verbatim, of the text
filter inside `applySortAndFilter`): the term occurs in the lowercased
title, description, or folder. -/
def matchesTerm (term : String) (v : Record) : Bool :=
  containsStr (strToLower v.title) term ||
    containsStr (strToLower v.description) term ||
    folderContains term v

/-- The `_searchScore` assigned by `performSearch` to a record for an
already lowercased and trimmed term (lines 280-296 of the catalog script). -/
def searchScore (term : String) (v : Record) : Nat :=
  let titleMatch := containsStr (strToLower v.title) term
  let descriptionMatch := containsStr (strToLower v.description) term
  let folderMatch := folderContains term v
  let exactMatch := strToLower v.title == term || strToLower v.description == term
  if exactMatch then 100
  else if titleMatch then 50
  else if folderMatch then 40
  else if descriptionMatch then 25
  else 0

/-- Models `VideoCatalog.performSearch` up to the point where
`this.filteredVideos` holds the relevance-ranked list (lines 273-303):
lowercase and trim the raw term; an empty result is the identity
pass-through with no score assigned; otherwise keep the records matching
the term, attach their `_searchScore`, and stable-sort by descending
score (comparator `(b._searchScore || 0) - (a._searchScore || 0)`).
The subsequent call to `applySortAndFilter` (the §4.3 pipeline, embedded
separately below) recomputes the displayed list from the full store. -/
def performSearch (videos : List Record) (searchTerm : String) :
    List (Record × Option Nat) :=
  let term := strTrim (strToLower searchTerm)
  if term = "" then videos.map (fun v => (v, none))
  else
    sortJs (fun a b => ((b.2.getD 0 : Int) - (a.2.getD 0 : Int)))
      ((videos.filter (fun v => matchesTerm term v)).map
        (fun v => (v, some (searchScore term v))))

/-! ## Sort and filter pipeline (VideoCatalog.applySortAndFilter) -/

/-- The four values the sort dropdown can take. -/
inductive SortKey where
  | newest
  | oldest
  | title
  | titleDesc
  deriving Repr, DecidableEq

/-- Lexicographic code-point comparison of character lists. -/
def cmpChars : List Char → List Char → Ordering
  | [], [] => Ordering.eq
  | [], _ :: _ => Ordering.lt
  | _ :: _, [] => Ordering.gt
  | a :: as, b :: bs =>
      if a < b then Ordering.lt
      else if b < a then Ordering.gt
      else cmpChars as bs

/-- Models JavaScript `a.localeCompare(b)`.  The host collation is
modelled as code-point order (which coincides with any reasonable locale
on the ASCII-only titles exercised by the examples). -/
def localeCompare (a b : String) : Int :=
  match cmpChars a.toList b.toList with
  | Ordering.lt => -1
  | Ordering.gt => 1
  | Ordering.eq => 0

/-- The comparator selected by the sort switch of `applySortAndFilter`
(lines 331-345). -/
def keyCmp (sk : SortKey) : Record → Record → Int :=
  match sk with
  | SortKey.oldest => fun a b => a.dateAdded - b.dateAdded
  | SortKey.title => fun a b => localeCompare a.title b.title
  | SortKey.titleDesc => fun a b => localeCompare b.title a.title
  | SortKey.newest => fun a b => b.dateAdded - a.dateAdded

/-- The sort switch of `applySortAndFilter` (lines 331-345): sort with
the comparator of the active key. -/
def sortByKey (sk : SortKey) (videos : List Record) : List Record :=
  sortJs (keyCmp sk) videos

/-- Models `VideoCatalog.applySortAndFilter` (lines 309-349): starting
from the full store, (1) if the lowercased trimmed search term is
non-empty, keep the records matching it (same predicate as the search
engine, no scoring); (2) unless the active folder is "all", keep the
records whose folder equals it; (3) sort by the active sort key. -/
def applySortAndFilter (records : List Record) (searchTerm activeFolder : String)
    (sk : SortKey) : List Record :=
  let term := strTrim (strToLower searchTerm)
  let vs1 := if term = "" then records else records.filter (fun v => matchesTerm term v)
  let vs2 := if activeFolder ≠ "all" then vs1.filter (fun v => v.folder == some activeFolder)
    else vs1
  sortByKey sk vs2

/-- Stage (1) of the §4.3 contract: text-filter by the term with the
search engine's substring rule, without scoring or reordering. -/
def textFilter (searchTerm : String) (records : List Record) : List Record :=
  records.filter (fun v => matchesTerm (strTrim (strToLower searchTerm)) v)

/-- Stage (2) of the §4.3 contract: keep records whose folder field is
exactly the active folder, unless the sentinel "all" is active. -/
def folderFilter (activeFolder : String) (records : List Record) : List Record :=
  if activeFolder ≠ "all" then records.filter (fun v => v.folder == some activeFolder)
  else records

/-! ## Record store (VideoCatalog.loadVideos / refreshVideos) -/

/-- Models the record-store update of `VideoCatalog.loadVideos` (line 37):
the fetched array is sorted by `new Date(b.dateAdded) - new Date(a.dateAdded)`
before being stored. -/
def loadVideos (fetched : List Record) : List Record :=
  sortJs (fun a b => b.dateAdded - a.dateAdded) fetched

/-- Models the record-store update of `VideoCatalog.refreshVideos`
(lines 56-65): the store is replaced, with the same newest-first sort,
only when the fetched count differs from the current count. -/
def refreshVideos (current fetched : List Record) : List Record :=
  if fetched.length ≠ current.length then
    sortJs (fun a b => b.dateAdded - a.dateAdded) fetched
  else current

/-! ## Order-theoretic facts about the comparators and `sortJs` -/

theorem cmpChars_symm : ∀ a b : List Char, cmpChars b a = (cmpChars a b).swap
  | [], [] => rfl
  | [], _ :: _ => rfl
  | _ :: _, [] => rfl
  | a :: as, b :: bs => by
    simp only [cmpChars]
    rcases lt_trichotomy a b with h | h | h
    · rw [if_neg (asymm h), if_pos h, if_pos h]
      rfl
    · subst h
      rw [if_neg (lt_irrefl a), if_neg (lt_irrefl a), if_neg (lt_irrefl a),
        if_neg (lt_irrefl a)]
      exact cmpChars_symm as bs
    · rw [if_pos h, if_neg (asymm h), if_pos h]
      rfl

theorem cmpChars_ne_gt_trans :
    ∀ a b c : List Char, cmpChars a b ≠ Ordering.gt → cmpChars b c ≠ Ordering.gt →
      cmpChars a c ≠ Ordering.gt
  | [], b, c, _, _ => by cases c <;> simp [cmpChars]
  | _ :: _, [], _, hab, _ => absurd rfl hab
  | _ :: _, _ :: _, [], _, hbc => absurd rfl hbc
  | a :: as, b :: bs, c :: cs, hab, hbc => by
    simp only [cmpChars] at hab hbc ⊢
    rcases lt_trichotomy a b with h1 | h1 | h1
    · rcases lt_trichotomy b c with h2 | h2 | h2
      · rw [if_pos (lt_trans h1 h2)]
        simp
      · subst h2
        rw [if_pos h1]
        simp
      · rw [if_neg (asymm h2), if_pos h2] at hbc
        exact absurd rfl hbc
    · subst h1
      rcases lt_trichotomy a c with h2 | h2 | h2
      · rw [if_pos h2]
        simp
      · subst h2
        rw [if_neg (lt_irrefl a), if_neg (lt_irrefl a)] at hab hbc ⊢
        exact cmpChars_ne_gt_trans as bs cs hab hbc
      · rw [if_neg (asymm h2), if_pos h2] at hbc
        exact absurd rfl hbc
    · rw [if_neg (asymm h1), if_pos h1] at hab
      exact absurd rfl hab

theorem localeCompare_le_iff (a b : String) :
    localeCompare a b ≤ 0 ↔ cmpChars a.toList b.toList ≠ Ordering.gt := by
  unfold localeCompare
  rcases h : cmpChars a.toList b.toList <;> simp [h]

theorem localeCompare_total (a b : String) :
    localeCompare a b ≤ 0 ∨ localeCompare b a ≤ 0 := by
  rw [localeCompare_le_iff, localeCompare_le_iff, cmpChars_symm a.toList b.toList]
  rcases cmpChars a.toList b.toList <;> simp [Ordering.swap]

theorem localeCompare_trans {a b c : String} (hab : localeCompare a b ≤ 0)
    (hbc : localeCompare b c ≤ 0) : localeCompare a c ≤ 0 := by
  rw [localeCompare_le_iff] at hab hbc ⊢
  exact cmpChars_ne_gt_trans _ _ _ hab hbc

theorem keyCmp_total (sk : SortKey) (a b : Record) :
    keyCmp sk a b ≤ 0 ∨ keyCmp sk b a ≤ 0 := by
  cases sk <;> simp only [keyCmp]
  · omega
  · omega
  · exact localeCompare_total _ _
  · exact localeCompare_total _ _

theorem keyCmp_trans (sk : SortKey) {a b c : Record} (hab : keyCmp sk a b ≤ 0)
    (hbc : keyCmp sk b c ≤ 0) : keyCmp sk a c ≤ 0 := by
  cases sk <;> simp only [keyCmp] at hab hbc ⊢
  · omega
  · omega
  · exact localeCompare_trans hab hbc
  · exact localeCompare_trans hbc hab

theorem sortJs_perm (cmp : α → α → Int) (l : List α) : List.Perm (sortJs cmp l) l :=
  List.perm_insertionSort _ l

theorem mem_sortJs (cmp : α → α → Int) (l : List α) (x : α) :
    x ∈ sortJs cmp l ↔ x ∈ l :=
  List.mem_insertionSort _

theorem sortJs_sorted (cmp : α → α → Int)
    (htotal : ∀ a b, cmp a b ≤ 0 ∨ cmp b a ≤ 0)
    (htrans : ∀ a b c, cmp a b ≤ 0 → cmp b c ≤ 0 → cmp a c ≤ 0) (l : List α) :
    (sortJs cmp l).Pairwise (fun a b => cmp a b ≤ 0) := by
  haveI : IsTotal α (fun a b => cmp a b ≤ 0) := ⟨htotal⟩
  haveI : IsTrans α (fun a b => cmp a b ≤ 0) := ⟨htrans⟩
  exact List.sorted_insertionSort _ l

theorem sortJs_eq_of_sorted {cmp : α → α → Int} {l : List α}
    (h : l.Pairwise (fun a b => cmp a b ≤ 0)) : sortJs cmp l = l :=
  List.Sorted.insertionSort_eq h

/-- Stability of `orderedInsert`, phrased through `filter`: inserting an
element behind a class `p` of mutually `r`-comparable elements either
prepends it to the class (when it belongs to it) or leaves the class
untouched. -/
theorem filter_orderedInsert_of_class (r : α → α → Prop) [DecidableRel r] (p : α → Bool)
    (x : α) (hx : ∀ b, p x = true → p b = true → r x b) :
    ∀ l : List α, (l.orderedInsert r x).filter p = (x :: l).filter p
  | [] => rfl
  | b :: t => by
    simp only [List.orderedInsert]
    by_cases hrb : r x b
    · rw [if_pos hrb]
    · rw [if_neg hrb]
      have ht := filter_orderedInsert_of_class r p x hx t
      cases hpx : p x with
      | true =>
        have hpb : p b = false := by
          cases hpb2 : p b
          · rfl
          · exact absurd (hx b hpx hpb2) hrb
        simp [List.filter_cons, hpx, hpb, ht]
      | false => simp [List.filter_cons, hpx, ht]

/-- Stability of `insertionSort`, phrased through `filter`: the elements
of any class of mutually `r`-comparable elements keep their relative
input order. -/
theorem filter_insertionSort_of_class (r : α → α → Prop) [DecidableRel r] (p : α → Bool)
    (hp : ∀ a b, p a = true → p b = true → r a b) :
    ∀ l : List α, (l.insertionSort r).filter p = l.filter p
  | [] => rfl
  | x :: t => by
    simp only [List.insertionSort]
    rw [filter_orderedInsert_of_class r p x (fun b => hp x b)]
    simp only [List.filter_cons, filter_insertionSort_of_class r p hp t]

/-- Stability of `sortJs` for a comparator and a class of elements the
comparator ties: the class keeps its input order. -/
theorem sortJs_filter_class (cmp : α → α → Int) (p : α → Bool)
    (hp : ∀ a b, p a = true → p b = true → cmp a b ≤ 0) (l : List α) :
    (sortJs cmp l).filter p = l.filter p :=
  filter_insertionSort_of_class _ p hp l

/-! ## URL classifier and normalizer (upload.js and video.js) -/

/-- Models acceptance by the host WHATWG URL constructor (`new URL(url)`
not throwing): the string starts with a scheme — an ASCII letter followed
by letters, digits, `+`, `-` or `.` — and a colon.  Only this aspect of
the host parser is relied on by the scripts (a bare `try/catch` guard). -/
def canParseUrl (url : String) : Bool :=
  match url.toList with
  | [] => false
  | c :: rest => c.isAlpha && schemeRest rest
where
  /-- Scan scheme characters until the colon. -/
  schemeRest : List Char → Bool
    | [] => false
    | c :: t =>
        if c = ':' then true
        else (c.isAlphanum || c = '+' || c = '-' || c = '.') && schemeRest t

/-- The character class `[a-zA-Z0-9_-]` of the ID-extraction regexes. -/
def isIdChar (c : Char) : Bool :=
  c.isAlphanum || c = '_' || c = '-'

/-- Attempts one regex alternative at the current position: the literal
marker followed by at least one ID character; returns the captured run. -/
def markerRun (m : List Char) (cs : List Char) : Option (List Char) :=
  if m.isPrefixOf cs then
    let run := (cs.drop m.length).takeWhile isIdChar
    if run.isEmpty then none else some run
  else none

/-- Left-to-right regex scan for `(?:m₁|m₂|…)([a-zA-Z0-9_-]+)`: at each
position try the alternatives in order; on failure advance one character,
exactly as an unanchored regex engine does. -/
def extractFirstMarker (markers : List (List Char)) : List Char → Option (List Char)
  | [] => none
  | c :: t =>
    match markers.findSome? (fun m => markerRun m (c :: t)) with
    | some run => some run
    | none => extractFirstMarker markers t

/-- Models `extractGoogleDriveFileId` (upload.js line 463) and the
identical inline match of video.js: first match of
`\/file\/d\/([a-zA-Z0-9_-]+)`. -/
def extractGoogleDriveFileId (url : String) : Option String :=
  (extractFirstMarker ["/file/d/".toList] url.toList).map List.asString

/-- The JavaScript line terminators that `.` does not match. -/
def isLineTerminator (c : Char) : Bool :=
  c = '\n' || c = '\r' || c = '\u2028' || c = '\u2029'

/-- Scan for the last viable `v=([a-zA-Z0-9_-]+)` reachable by a greedy
`.*` (which cannot cross a line terminator), keeping the best so far. -/
def scanVEq : List Char → Option (List Char) → Option (List Char)
  | [], acc => acc
  | c :: t, acc =>
      if isLineTerminator c then acc
      else
        scanVEq t
          (if "v=".toList.isPrefixOf (c :: t) then
            match markerRun "v=".toList (c :: t) with
            | some run => some run
            | none => acc
          else acc)

/-- Models the second pattern of `extractYouTubeVideoId`
(`youtube\.com\/watch\?.*v=([a-zA-Z0-9_-]+)`): find the first position
where the literal head matches and a viable `v=` capture follows. -/
def extractWatchLoose : List Char → Option (List Char)
  | [] => none
  | c :: t =>
      if "youtube.com/watch?".toList.isPrefixOf (c :: t) then
        match scanVEq ((c :: t).drop 18) none with
        | some run => some run
        | none => extractWatchLoose t
      else extractWatchLoose t

/-- Models `extractYouTubeVideoId` (upload.js lines 468-479): the first
pattern's three alternatives, then the loose `watch?.*v=` pattern. -/
def extractYouTubeVideoId (url : String) : Option String :=
  match extractFirstMarker
      ["youtube.com/watch?v=".toList, "youtu.be/".toList, "youtube.com/embed/".toList]
      url.toList with
  | some run => some run.asString
  | none => (extractWatchLoose url.toList).map List.asString

/-- Models `isValidGoogleDriveUrl` (upload.js line 432): a non-empty
string containing both `drive.google.com` and `/file/d/`. -/
def isValidGoogleDriveUrl (url : String) : Bool :=
  !(url == "") && containsStr url "drive.google.com" && containsStr url "/file/d/"

/-- Models the regex test of `isValidYouTubeUrl` (upload.js line 437):
`^(https?:\/\/)?(www\.)?(youtube\.com|youtu\.be)\/.+`.  The optional
groups are deterministic because a string beginning with the scheme or
`www.` cannot simultaneously begin with either host literal, and `.+`
only requires one non-line-terminator character after the slash. -/
def isValidYouTubeUrl (url : String) : Bool :=
  let cs := url.toList
  let s1 := if "https://".toList.isPrefixOf cs then cs.drop 8
    else if "http://".toList.isPrefixOf cs then cs.drop 7
    else cs
  let s2 := if "www.".toList.isPrefixOf s1 then s1.drop 4 else s1
  (("youtube.com/".toList.isPrefixOf s2) && firstCharOk (s2.drop 12)) ||
    (("youtu.be/".toList.isPrefixOf s2) && firstCharOk (s2.drop 9))
where
  /-- Does `.+` match here: at least one character, not a line terminator. -/
  firstCharOk : List Char → Bool
    | [] => false
    | c :: _ => !isLineTerminator c

/-- The extension list of `isValidDirectVideoUrl` / `isDirectVideoUrl`. -/
def videoExtensions : List String :=
  [".mp4", ".webm", ".ogg", ".avi", ".mov", ".wmv", ".flv", ".mkv"]

/-- The shared extension test: some video extension occurs, case
insensitively, as a substring anywhere in the URL. -/
def hasVideoExtension (url : String) : Bool :=
  videoExtensions.any (fun ext => containsStr (strToLower url) ext)

/-- Models `VideoUploader.isValidDirectVideoUrl` (upload.js lines
441-450): non-empty, parses as a URL, and contains a video extension. -/
def isValidDirectVideoUrl (url : String) : Bool :=
  if url == "" then false
  else if canParseUrl url then hasVideoExtension url
  else false

/-- Models `VideoPlayer.isDirectVideoUrl` (video.js lines 156-160):
non-empty and contains a video extension; no URL-parse guard. -/
def isDirectVideoUrl (url : String) : Bool :=
  if url == "" then false
  else hasVideoExtension url

/-- The source kinds of §4.1 of the specification. -/
inductive UrlKind where
  | googleDrive
  | youTube
  | directVideo
  | unknown
  deriving Repr, DecidableEq

/-- The classifier contract of §4.1, realised by the cascade of
`validateDriveUrl` / `convertToEmbedUrl` (upload.js): Google Drive is
tested first, then YouTube, then direct video. -/
def classify (url : String) : UrlKind :=
  if isValidGoogleDriveUrl url then UrlKind.googleDrive
  else if isValidYouTubeUrl url then UrlKind.youTube
  else if isValidDirectVideoUrl url then UrlKind.directVideo
  else UrlKind.unknown

/-- Models `VideoUploader.convertToEmbedUrl` (upload.js lines 408-421). -/
def convertToEmbedUrl (url : String) : String :=
  if isValidGoogleDriveUrl url then
    match extractGoogleDriveFileId url with
    | some fileId => "https://drive.google.com/file/d/" ++ fileId ++ "/preview"
    | none => url
  else if isValidYouTubeUrl url then
    match extractYouTubeVideoId url with
    | some videoId => "https://www.youtube.com/embed/" ++ videoId
    | none => url
  else url

/-- Models `VideoPlayer.convertGoogleDriveUrl` (video.js lines 162-170):
match the file-ID regex and build the preview URL, else return the input. -/
def convertGoogleDriveUrl (url : String) : String :=
  match extractGoogleDriveFileId url with
  | some fileId => "https://drive.google.com/file/d/" ++ fileId ++ "/preview"
  | none => url

/-! ## Upload form validation (VideoUploader.validateForm) -/

/-- Models the boolean result of `validateDriveUrl` (upload.js lines
144-170, DOM feedback elided): empty is invalid; otherwise accept Google
Drive, YouTube, or direct video URLs. -/
def validateDriveUrl (url : String) : Bool :=
  if url == "" then false
  else if isValidGoogleDriveUrl url then true
  else if isValidYouTubeUrl url then true
  else if isValidDirectVideoUrl url then true
  else false

/-- The extension list of `isValidImageUrl` (upload.js line 456). -/
def imageExtensions : List String :=
  [".jpg", ".jpeg", ".png", ".gif", ".webp", ".svg"]

/-- Models `VideoUploader.isValidImageUrl` (upload.js lines 452-461):
an empty value passes (optional field); otherwise the value must parse
as a URL and contain an image extension (case-insensitively) or the
substring `thumbnail` (case-sensitively, on the raw string). -/
def isValidImageUrl (url : String) : Bool :=
  if url == "" then true
  else if canParseUrl url then
    imageExtensions.any (fun ext => containsStr (strToLower url) ext) ||
      containsStr url "thumbnail"
  else false

/-- The form fields handed to `validateForm`, as assembled by
`getFormData` (upload.js lines 333-349). -/
structure FormData where
  driveUrl : String
  title : String
  description : String
  thumbnailUrl : String
  folder : String
  deriving Repr, DecidableEq

/-- Models `getFormData` (upload.js lines 342-348): every text field is
read trimmed; the folder is the dropdown value (or the trimmed new-folder
name, both covered by one string here). -/
def mkFormData (driveUrl title description thumbnailUrl folder : String) : FormData :=
  { driveUrl := strTrim driveUrl
    title := strTrim title
    description := strTrim description
    thumbnailUrl := strTrim thumbnailUrl
    folder := folder }

/-- Models `VideoUploader.validateForm` (upload.js lines 351-406), the
conjunction of its five field checks (`isValid` accumulates; the DOM
error messages are elided). -/
def validateForm (d : FormData) : Bool :=
  (!(d.driveUrl == "") && validateDriveUrl d.driveUrl) &&
    (!(d.title == "") && !(decide (d.title.length < 3)) &&
      !(decide (d.title.length > 100))) &&
    !(d.folder == "") &&
    !(!(d.description == "") && decide (d.description.length > 500)) &&
    !(!(d.thumbnailUrl == "") && !(isValidImageUrl d.thumbnailUrl))

/-! ## Sample records used by the concrete witnesses -/

/-- A sample record titled Alpha. -/
def recAlpha : Record :=
  { id := "vid-alpha", title := "Alpha", description := "first sample",
    thumbnail := "", videoUrl := "", driveUrl := "", dateAdded := 3,
    folder := some "Tutorials" }

/-- A sample record titled Beta. -/
def recBeta : Record :=
  { id := "vid-beta", title := "Beta", description := "second sample",
    thumbnail := "", videoUrl := "", driveUrl := "", dateAdded := 5,
    folder := some "Entertainment" }

/-- A sample record titled Gamma. -/
def recGamma : Record :=
  { id := "vid-gamma", title := "Gamma", description := "third sample",
    thumbnail := "", videoUrl := "", driveUrl := "", dateAdded := 4,
    folder := none }

/-! ## Facts about the search engine -/

theorem matchesTerm_empty (v : Record) : matchesTerm "" v = true := by
  unfold matchesTerm
  rw [containsStr_empty]
  simp

theorem exact_implies_sub {s t : String} (h : (s == t) = true) :
    containsStr s t = true := by
  rw [beq_iff_eq.mp h]
  exact containsStr_self t

theorem searchScore_ne_zero_iff (t : String) (v : Record) :
    searchScore t v ≠ 0 ↔ matchesTerm t v = true := by
  unfold searchScore matchesTerm
  cases hE : (strToLower v.title == t || strToLower v.description == t) with
  | true =>
    have hE2 : (strToLower v.title == t) = true ∨ (strToLower v.description == t) = true := by
      simpa using hE
    simp only [hE, if_true, Bool.or_eq_true]
    rcases hE2 with h | h
    · simp [exact_implies_sub h]
    · simp [exact_implies_sub h]
  | false =>
    cases hT : containsStr (strToLower v.title) t <;>
      cases hF : folderContains t v <;>
        cases hD : containsStr (strToLower v.description) t <;>
          simp [hE, hT, hF, hD]

/-- C8: invoking the search with a term that is empty (or whitespace-only,
so that lowercasing and trimming leaves the empty string) is an identity
pass-through: the records come back in their original order and no
relevance score is assigned to any of them. -/
theorem search_empty_term_identity (videos : List Record) (raw : String)
    (h : strTrim (strToLower raw) = "") :
    performSearch videos raw = videos.map (fun v => (v, (none : Option Nat))) := by
  simp [performSearch, h]

/-- Witness for C8 at a whitespace-only term and a two-record list. -/
theorem search_empty_term_identity_witness :
    performSearch [recAlpha, recBeta] "   " = [(recAlpha, none), (recBeta, none)] :=
  search_empty_term_identity [recAlpha, recBeta] "   " (by decide)

/-- C2: for a non-empty, lowercased, trimmed term, the search assigns each
record the single highest applicable score — 100 for an exact full-string
match of title or description, else 50 for a title substring match, else
40 for a folder substring match, else 25 for a description substring
match, else 0 — and a record appears in the search output exactly when
its score is non-zero. -/
theorem search_score_rule (t : String) (h1 : strTrim (strToLower t) = t) (h2 : t ≠ "")
    (videos : List Record) (v : Record) :
    ((strToLower v.title = t ∨ strToLower v.description = t) → searchScore t v = 100) ∧
    (¬(strToLower v.title = t ∨ strToLower v.description = t) →
      containsStr (strToLower v.title) t = true → searchScore t v = 50) ∧
    (¬(strToLower v.title = t ∨ strToLower v.description = t) →
      containsStr (strToLower v.title) t = false → folderContains t v = true →
      searchScore t v = 40) ∧
    (¬(strToLower v.title = t ∨ strToLower v.description = t) →
      containsStr (strToLower v.title) t = false → folderContains t v = false →
      containsStr (strToLower v.description) t = true → searchScore t v = 25) ∧
    (matchesTerm t v = false → searchScore t v = 0) ∧
    (v ∈ videos →
      ((v, some (searchScore t v)) ∈ performSearch videos t ↔ searchScore t v ≠ 0)) := by
  have exactOf : (strToLower v.title = t ∨ strToLower v.description = t) →
      (strToLower v.title == t || strToLower v.description == t) = true := by
    intro hE
    rcases hE with h | h <;> simp [h]
  have exactNotOf : ¬(strToLower v.title = t ∨ strToLower v.description = t) →
      (strToLower v.title == t || strToLower v.description == t) = false := by
    intro hE
    cases hb : (strToLower v.title == t || strToLower v.description == t)
    · rfl
    · exact absurd (by simpa using hb) hE
  refine ⟨?_, ?_, ?_, ?_, ?_, ?_⟩
  · intro hE
    unfold searchScore
    simp [exactOf hE]
  · intro hE hT
    unfold searchScore
    simp [exactNotOf hE, hT]
  · intro hE hT hF
    unfold searchScore
    simp [exactNotOf hE, hT, hF]
  · intro hE hT hF hD
    unfold searchScore
    simp [exactNotOf hE, hT, hF, hD]
  · intro hm
    by_contra hne
    exact absurd ((searchScore_ne_zero_iff t v).mp hne) (by simp [hm])
  · intro hv
    have hps : performSearch videos t =
        sortJs (fun a b => ((b.2.getD 0 : Int) - (a.2.getD 0 : Int)))
          ((videos.filter (fun w => matchesTerm t w)).map
            (fun w => (w, some (searchScore t w)))) := by
      simp only [performSearch, h1, if_neg h2]
    rw [hps]
    constructor
    · intro hmem
      rw [mem_sortJs] at hmem
      obtain ⟨w, hw, heq⟩ := List.mem_map.mp hmem
      have hwv : w = v := congrArg Prod.fst heq
      subst hwv
      exact (searchScore_ne_zero_iff t w).mpr (List.mem_filter.mp hw).2
    · intro hne
      rw [mem_sortJs]
      exact List.mem_map.mpr
        ⟨v, List.mem_filter.mpr ⟨hv, (searchScore_ne_zero_iff t v).mp hne⟩, rfl⟩

/-- Witness for C2 at the term "beta" and a concrete record list: the
exact-match clause and the membership clause with every hypothesis
discharged at this input. -/
theorem search_score_rule_witness :
    searchScore "beta" recBeta = 100 ∧
    ((recBeta, some (searchScore "beta" recBeta)) ∈ performSearch [recAlpha, recBeta] "beta" ↔
      searchScore "beta" recBeta ≠ 0) :=
  ⟨(search_score_rule "beta" (by decide) (by decide) [recAlpha, recBeta] recBeta).1
      (Or.inl (by decide)),
    (search_score_rule "beta" (by decide) (by decide)
        [recAlpha, recBeta] recBeta).2.2.2.2.2 (by decide)⟩

/-- C1: for a term that stays non-empty after lowercasing and trimming,
the search output is ordered by descending relevance score, and the
records of any fixed score keep the relative order they had in the input
list (the sort is stable). -/
theorem search_output_sorted_stable (videos : List Record) (raw : String)
    (h : strTrim (strToLower raw) ≠ "") :
    (performSearch videos raw).Pairwise (fun a b => b.2.getD 0 ≤ a.2.getD 0) ∧
    ∀ n : Nat, (performSearch videos raw).filter (fun p => p.2.getD 0 == n) =
      ((videos.filter (fun v => matchesTerm (strTrim (strToLower raw)) v)).map
        (fun v => (v, some (searchScore (strTrim (strToLower raw)) v)))).filter
        (fun p => p.2.getD 0 == n) := by
  have hps : performSearch videos raw =
      sortJs (fun a b => ((b.2.getD 0 : Int) - (a.2.getD 0 : Int)))
        ((videos.filter (fun v => matchesTerm (strTrim (strToLower raw)) v)).map
          (fun v => (v, some (searchScore (strTrim (strToLower raw)) v)))) := by
    simp only [performSearch, if_neg h]
  rw [hps]
  constructor
  · have hs := sortJs_sorted (fun a b => ((b.2.getD 0 : Int) - (a.2.getD 0 : Int)))
      (fun a b => by
        show (b.2.getD 0 : Int) - a.2.getD 0 ≤ 0 ∨ (a.2.getD 0 : Int) - b.2.getD 0 ≤ 0
        omega)
      (fun a b c hab hbc => by
        have hab2 : (b.2.getD 0 : Int) - a.2.getD 0 ≤ 0 := hab
        have hbc2 : (c.2.getD 0 : Int) - b.2.getD 0 ≤ 0 := hbc
        show (c.2.getD 0 : Int) - a.2.getD 0 ≤ 0
        omega)
      ((videos.filter (fun v => matchesTerm (strTrim (strToLower raw)) v)).map
        (fun v => (v, some (searchScore (strTrim (strToLower raw)) v))))
    refine hs.imp ?_
    intro a b hab
    have hab2 : (b.2.getD 0 : Int) - a.2.getD 0 ≤ 0 := hab
    omega
  · intro n
    apply sortJs_filter_class
    intro a b ha hb
    have h1 := beq_iff_eq.mp ha
    have h2 := beq_iff_eq.mp hb
    show (b.2.getD 0 : Int) - a.2.getD 0 ≤ 0
    omega

/-- Witness for C1 at the term "sample" (three tied matches) over a
concrete three-record list. -/
theorem search_output_sorted_stable_witness :
    (performSearch [recBeta, recAlpha, recGamma] "sample").Pairwise
      (fun a b => b.2.getD 0 ≤ a.2.getD 0) ∧
    ∀ n : Nat,
      (performSearch [recBeta, recAlpha, recGamma] "sample").filter
        (fun p => p.2.getD 0 == n) =
      (([recBeta, recAlpha, recGamma].filter
          (fun v => matchesTerm (strTrim (strToLower "sample")) v)).map
        (fun v => (v, some (searchScore (strTrim (strToLower "sample")) v)))).filter
        (fun p => p.2.getD 0 == n) :=
  search_output_sorted_stable [recBeta, recAlpha, recGamma] "sample" (by decide)

/-! ## Facts about the sort and filter pipeline -/

theorem mem_sortByKey (sk : SortKey) (l : List Record) (x : Record) :
    x ∈ sortByKey sk l ↔ x ∈ l := by
  unfold sortByKey
  exact mem_sortJs _ _ _

theorem applySortAndFilter_stages (records : List Record) (raw f : String) (sk : SortKey) :
    applySortAndFilter records raw f sk =
      sortByKey sk (folderFilter f (textFilter raw records)) := by
  have htf : textFilter raw records =
      if strTrim (strToLower raw) = "" then records
      else records.filter (fun v => matchesTerm (strTrim (strToLower raw)) v) := by
    unfold textFilter
    by_cases h : strTrim (strToLower raw) = ""
    · rw [if_pos h, h]
      exact List.filter_eq_self.mpr (fun v _ => matchesTerm_empty v)
    · rw [if_neg h]
  simp only [applySortAndFilter]
  congr 1
  unfold folderFilter
  rw [htf]

/-- C3: the pipeline computes its result as (1) text-filter by the term
with the search engine's match predicate (no scoring or reordering),
then (2) folder-filter by exact string equality unless the sentinel
folder "all" is active, then (3) sort by the sort key; consequently a
record is displayed exactly when it is in the store, matches the term,
and carries the active folder. -/
theorem pipeline_stage_order (records : List Record) (raw f : String) (sk : SortKey) :
    applySortAndFilter records raw f sk =
      sortByKey sk (folderFilter f (textFilter raw records)) ∧
    ∀ v, v ∈ applySortAndFilter records raw f sk ↔
      v ∈ records ∧ matchesTerm (strTrim (strToLower raw)) v = true ∧
        (f = "all" ∨ v.folder = some f) := by
  refine ⟨applySortAndFilter_stages records raw f sk, ?_⟩
  intro v
  rw [applySortAndFilter_stages, mem_sortByKey]
  unfold folderFilter textFilter
  by_cases hf : f = "all"
  · simp [hf, List.mem_filter]
  · simp [hf, List.mem_filter, and_assoc]
    tauto

/-- C5: the pipeline is idempotent — applying it to its own output with
the same term, folder and sort key returns that output unchanged. -/
theorem pipeline_idempotent (records : List Record) (raw f : String) (sk : SortKey) :
    applySortAndFilter (applySortAndFilter records raw f sk) raw f sk =
      applySortAndFilter records raw f sk := by
  have hL := applySortAndFilter_stages records raw f sk
  have hmem : ∀ v ∈ applySortAndFilter records raw f sk,
      matchesTerm (strTrim (strToLower raw)) v = true ∧
        (f ≠ "all" → (v.folder == some f) = true) := by
    intro v hv
    rw [hL, mem_sortByKey] at hv
    unfold folderFilter at hv
    by_cases hf : f = "all"
    · rw [if_neg (not_not_intro hf)] at hv
      unfold textFilter at hv
      exact ⟨(List.mem_filter.mp hv).2, fun hff => absurd hf hff⟩
    · rw [if_pos hf] at hv
      obtain ⟨hv1, hfol⟩ := List.mem_filter.mp hv
      unfold textFilter at hv1
      exact ⟨(List.mem_filter.mp hv1).2, fun _ => hfol⟩
  have htf : textFilter raw (applySortAndFilter records raw f sk) =
      applySortAndFilter records raw f sk := by
    unfold textFilter
    exact List.filter_eq_self.mpr (fun v hv => (hmem v hv).1)
  have hff : folderFilter f (applySortAndFilter records raw f sk) =
      applySortAndFilter records raw f sk := by
    unfold folderFilter
    by_cases hf : f = "all"
    · rw [if_neg (not_not_intro hf)]
    · rw [if_pos hf]
      exact List.filter_eq_self.mpr (fun v hv => (hmem v hv).2 hf)
  have hsorted : (applySortAndFilter records raw f sk).Pairwise
      (fun a b => keyCmp sk a b ≤ 0) := by
    rw [hL]
    unfold sortByKey
    exact sortJs_sorted (keyCmp sk) (keyCmp_total sk)
      (fun a b c hab hbc => keyCmp_trans sk hab hbc) _
  calc applySortAndFilter (applySortAndFilter records raw f sk) raw f sk
      = sortByKey sk (folderFilter f (textFilter raw
          (applySortAndFilter records raw f sk))) :=
        applySortAndFilter_stages _ raw f sk
    _ = sortByKey sk (applySortAndFilter records raw f sk) := by rw [htf, hff]
    _ = applySortAndFilter records raw f sk := sortJs_eq_of_sorted hsorted

/-- C4: sorting with the title key orders records ascending under the
title comparator, the title-desc key orders them descending, and on the
titles Alpha, Beta, Gamma the title-desc key yields Gamma, Beta, Alpha. -/
theorem title_sort_order :
    (∀ records : List Record,
      (sortByKey SortKey.title records).Pairwise
        (fun a b => localeCompare a.title b.title ≤ 0)) ∧
    (∀ records : List Record,
      (sortByKey SortKey.titleDesc records).Pairwise
        (fun a b => localeCompare b.title a.title ≤ 0)) ∧
    sortByKey SortKey.titleDesc [recAlpha, recBeta, recGamma] =
      [recGamma, recBeta, recAlpha] := by
  refine ⟨?_, ?_, by decide⟩
  · intro records
    exact sortJs_sorted (keyCmp SortKey.title) (keyCmp_total _)
      (fun a b c hab hbc => keyCmp_trans _ hab hbc) records
  · intro records
    exact sortJs_sorted (keyCmp SortKey.titleDesc) (keyCmp_total _)
      (fun a b c hab hbc => keyCmp_trans _ hab hbc) records

/-! ## Facts about the record store -/

/-- C10: after a successful load the stored list is the fetched records
sorted descending by `dateAdded` (newest first), and a refresh that
replaces the list (the fetched count differs) stores exactly the same
newest-first sort of the fetched records. -/
theorem store_newest_first (current fetched : List Record) :
    (loadVideos fetched).Pairwise (fun a b => b.dateAdded ≤ a.dateAdded) ∧
    List.Perm (loadVideos fetched) fetched ∧
    (fetched.length ≠ current.length →
      refreshVideos current fetched = loadVideos fetched) := by
  refine ⟨?_, sortJs_perm _ _, ?_⟩
  · have hs := sortJs_sorted (fun a b : Record => b.dateAdded - a.dateAdded)
      (fun a b => by
        show b.dateAdded - a.dateAdded ≤ 0 ∨ a.dateAdded - b.dateAdded ≤ 0
        omega)
      (fun a b c hab hbc => by
        have hab2 : b.dateAdded - a.dateAdded ≤ 0 := hab
        have hbc2 : c.dateAdded - b.dateAdded ≤ 0 := hbc
        show c.dateAdded - a.dateAdded ≤ 0
        omega)
      fetched
    refine hs.imp ?_
    intro a b hab
    have hab2 : b.dateAdded - a.dateAdded ≤ 0 := hab
    omega
  · intro h
    unfold refreshVideos loadVideos
    rw [if_pos h]

/-- Witness for C10 at a two-record fetch against a one-record store,
with the count-differs hypothesis discharged. -/
theorem store_newest_first_witness :
    refreshVideos [recGamma] [recAlpha, recBeta] = loadVideos [recAlpha, recBeta] :=
  (store_newest_first [recGamma] [recAlpha, recBeta]).2.2 (by decide)

/-! ## Facts about the URL normalizer -/

/-- C6: `convertToEmbedUrl` is a total function that maps a URL
classified Google Drive to the preview embed of its extracted file ID, a
URL classified YouTube to the embed of its extracted video ID, returns
any URL classified Unknown unchanged, and returns the input unchanged
whenever the respective ID extraction fails; the player-side
`convertGoogleDriveUrl` agrees with it on every Google Drive URL. -/
theorem embed_url_policy (url : String) :
    (classify url = UrlKind.googleDrive → ∀ i, extractGoogleDriveFileId url = some i →
      convertToEmbedUrl url = "https://drive.google.com/file/d/" ++ i ++ "/preview") ∧
    (classify url = UrlKind.googleDrive → extractGoogleDriveFileId url = none →
      convertToEmbedUrl url = url) ∧
    (classify url = UrlKind.youTube → ∀ i, extractYouTubeVideoId url = some i →
      convertToEmbedUrl url = "https://www.youtube.com/embed/" ++ i) ∧
    (classify url = UrlKind.youTube → extractYouTubeVideoId url = none →
      convertToEmbedUrl url = url) ∧
    (classify url = UrlKind.unknown → convertToEmbedUrl url = url) ∧
    (isValidGoogleDriveUrl url = true →
      convertGoogleDriveUrl url = convertToEmbedUrl url) := by
  refine ⟨?_, ?_, ?_, ?_, ?_, ?_⟩
  · intro hc i hi
    unfold classify at hc
    split_ifs at hc with h1 h2 h3
    all_goals try simp_all
    unfold convertToEmbedUrl
    rw [if_pos h1, hi]
  · intro hc hnone
    unfold classify at hc
    split_ifs at hc with h1 h2 h3
    all_goals try simp_all
    unfold convertToEmbedUrl
    rw [if_pos h1, hnone]
  · intro hc i hi
    unfold classify at hc
    split_ifs at hc with h1 h2 h3
    all_goals try simp_all
    unfold convertToEmbedUrl
    rw [if_neg (by simp [h1]), if_pos h2, hi]
  · intro hc hnone
    unfold classify at hc
    split_ifs at hc with h1 h2 h3
    all_goals try simp_all
    unfold convertToEmbedUrl
    rw [if_neg (by simp [h1]), if_pos h2, hnone]
  · intro hc
    unfold classify at hc
    split_ifs at hc with h1 h2 h3
    all_goals try simp_all
    unfold convertToEmbedUrl
    rw [if_neg (by simp [h1]), if_neg (by simp [h2])]
  · intro hG
    unfold convertGoogleDriveUrl convertToEmbedUrl
    rw [if_pos hG]

/-- Witness for C6 at a Google Drive URL, a YouTube URL and an unknown
string. -/
theorem embed_url_policy_witness :
    convertToEmbedUrl "https://drive.google.com/file/d/1A2B3C/view" =
      "https://drive.google.com/file/d/" ++ "1A2B3C" ++ "/preview" ∧
    convertToEmbedUrl "https://youtu.be/dQw4w9WgXcQ" =
      "https://www.youtube.com/embed/" ++ "dQw4w9WgXcQ" ∧
    convertToEmbedUrl "not a url" = "not a url" :=
  ⟨(embed_url_policy "https://drive.google.com/file/d/1A2B3C/view").1 (by decide)
      "1A2B3C" (by decide),
    (embed_url_policy "https://youtu.be/dQw4w9WgXcQ").2.2.1 (by decide)
      "dQw4w9WgXcQ" (by decide),
    (embed_url_policy "not a url").2.2.2.2.1 (by decide)⟩

/-- C7 counterexample: on the input "x.mp4" the player-side classifier
reports a direct video although the string does not parse as an absolute
URL, so the claimed biconditional (DirectVideo iff the string parses as a
URL and contains a video extension) fails on the code. -/
theorem direct_video_counterexample :
    ¬ (isDirectVideoUrl "x.mp4" =
        (canParseUrl "x.mp4" && hasVideoExtension "x.mp4")) := by
  decide

/-- C7 amended: the upload-side check reports a direct video exactly when
the string parses as an absolute URL and contains a video extension
(case-insensitive substring anywhere); the player-side check omits the
URL-parse requirement and tests only the extension substring. -/
theorem direct_video_amended (url : String) :
    isValidDirectVideoUrl url = (canParseUrl url && hasVideoExtension url) ∧
    isDirectVideoUrl url = hasVideoExtension url := by
  constructor
  · unfold isValidDirectVideoUrl
    by_cases h : (url == "") = true
    · have he : url = "" := beq_iff_eq.mp h
      subst he
      decide
    · rw [if_neg h]
      by_cases hp : canParseUrl url = true
      · rw [if_pos hp, hp, Bool.true_and]
      · rw [if_neg hp]
        have hp2 : canParseUrl url = false := by
          revert hp
          cases canParseUrl url <;> simp
        rw [hp2, Bool.false_and]
  · unfold isDirectVideoUrl
    by_cases h : (url == "") = true
    · have he : url = "" := beq_iff_eq.mp h
      subst he
      decide
    · rw [if_neg h]

/-! ## Facts about the upload validation -/

theorem length_eq_zero_iff (s : String) : s.length = 0 ↔ s = "" := by
  constructor
  · intro h
    cases s with
    | mk data =>
      cases data with
      | nil => rfl
      | cons c t => simp [String.length] at h
  · intro h
    subst h
    rfl

theorem validateDriveUrl_iff (u : String) :
    (u ≠ "" ∧ validateDriveUrl u = true) ↔ classify u ≠ UrlKind.unknown := by
  by_cases h0 : u = ""
  · subst h0
    have hc : classify "" = UrlKind.unknown := by decide
    simp [hc]
  · unfold validateDriveUrl classify
    rw [if_neg (by simpa using h0)]
    simp only [h0, ne_eq, not_false_eq_true, true_and]
    split_ifs <;> simp

/-- C9: the upload validation accepts exactly when the (trimmed) video
URL classifies as Google Drive, YouTube or direct video, the trimmed
title length lies in [3, 100], the trimmed description length is at most
500, the trimmed thumbnail — when provided — parses as a URL and contains
an image extension (case-insensitively) or the substring `thumbnail`,
and the folder is non-empty. -/
theorem upload_validation_rule (u t de th fol : String) :
    validateForm (mkFormData u t de th fol) = true ↔
      (classify (strTrim u) ≠ UrlKind.unknown ∧
        (3 ≤ (strTrim t).length ∧ (strTrim t).length ≤ 100) ∧
        (strTrim de).length ≤ 500 ∧
        (strTrim th ≠ "" →
          canParseUrl (strTrim th) = true ∧
            (imageExtensions.any
                (fun ext => containsStr (strToLower (strTrim th)) ext) = true ∨
              containsStr (strTrim th) "thumbnail" = true)) ∧
        fol ≠ "") := by
  unfold validateForm mkFormData
  simp only [Bool.and_eq_true, Bool.not_eq_true', Bool.not_eq_false', Bool.not_eq_true,
    beq_eq_false_iff_ne, ne_eq, decide_eq_false_iff_not, not_lt, Bool.and_eq_false_iff,
    beq_iff_eq, decide_eq_true_eq, not_le]
  constructor
  · rintro ⟨⟨⟨⟨⟨hu, hv⟩, ⟨ht0, ht3⟩, ht100⟩, hfol⟩, hde⟩, hth⟩
    refine ⟨(validateDriveUrl_iff (strTrim u)).mp ⟨hu, hv⟩, ⟨ht3, ht100⟩, ?_, ?_, hfol⟩
    · rcases hde with h | h
      · rw [h]
        decide
      · exact h
    · intro hth2
      rcases hth with h | h
      · exact absurd h hth2
      · unfold isValidImageUrl at h
        rw [if_neg (by simpa using hth2)] at h
        by_cases hp : canParseUrl (strTrim th) = true
        · rw [if_pos hp] at h
          exact ⟨hp, by simpa using h⟩
        · rw [if_neg hp] at h
          exact absurd h (by simp)
  · rintro ⟨hcl, ⟨ht3, ht100⟩, hde, hth, hfol⟩
    obtain ⟨hu, hv⟩ := (validateDriveUrl_iff (strTrim u)).mpr hcl
    refine ⟨⟨⟨⟨⟨hu, hv⟩, ⟨?_, ht3⟩, ht100⟩, hfol⟩, ?_⟩, ?_⟩
    · intro h0
      rw [(length_eq_zero_iff (strTrim t)).mpr h0] at ht3
      omega
    · by_cases h0 : strTrim de = ""
      · exact Or.inl h0
      · exact Or.inr hde
    · by_cases h0 : strTrim th = ""
      · exact Or.inl h0
      · refine Or.inr ?_
        obtain ⟨hp, hor⟩ := hth h0
        unfold isValidImageUrl
        rw [if_neg (by simpa using h0), if_pos hp]
        rcases hor with h | h <;> simp [h]

/-- Witness boundary checks for C9: title lengths 2 and 3, description
lengths 500 and 501 (the iff itself is hypothesis-free; these instances
evaluate the embedded validator at the spec's boundary examples). -/
theorem upload_validation_rule_witness :
    validateForm (mkFormData "https://youtu.be/abc" "abc" "" "" "General") = true ∧
    validateForm (mkFormData "https://youtu.be/abc" "ab" "" "" "General") = false := by
  constructor
  · exact (upload_validation_rule "https://youtu.be/abc" "abc" "" "" "General").mpr
      (by refine ⟨by decide, by decide, by decide, ?_, by decide⟩
          intro h
          exact absurd (by decide : strTrim "" = "") h)
  · decide

end Film
